import Mathlib

/-!
Shallow embedding of the `random-gradient-generator` Rust library
(`src/lib.rs`) together with proofs about its specification.

Modelling conventions:
* `f32` values are embedded as `FP := Option ℚ`, where `none` stands for NaN
  and `some q` for an ordinary (finite) value, with exact rational arithmetic.
  Infinities are outside the model; no claim mentions them.  All comparison
  operators on NaN are false, mirroring IEEE-754 comparison semantics used by
  Rust's `PartialOrd for f32`.
* `u32`/`usize` values are embedded as `ℕ`, `i32` as `ℤ`.
* Rust `Result` becomes `Except`.
* The external collaborators (the `simdnoise` noise generator and the `bmp`
  image buffer), whose code is not part of this repository, are modelled from
  the specification's contracts for them.
-/

namespace RandomGradient

/-- Embedding of `f32`: `none` is NaN, `some q` an ordinary finite value. -/
abbrev FP := Option ℚ

/-- Truncation of a rational toward zero, the semantics of Rust's
`f32 -> integer` casts and of the integral part used by `%` on floats. -/
def truncQ (q : ℚ) : ℤ :=
  if 0 ≤ q then ⌊q⌋ else ⌈q⌉

/-- Rust's `%` on floats (for finite operands and a non-zero divisor):
`a - b * trunc (a / b)`. -/
def qrem (a b : ℚ) : ℚ :=
  a - b * (truncQ (a / b) : ℚ)

/-- IEEE comparison `<=`: false whenever an operand is NaN. -/
def fle : FP → FP → Bool
  | some a, some b => decide (a ≤ b)
  | _, _ => false

/-- IEEE comparison `<`: false whenever an operand is NaN. -/
def flt : FP → FP → Bool
  | some a, some b => decide (a < b)
  | _, _ => false

/-- Multiplication on the `f32` model; NaN propagates. -/
def fmul : FP → FP → FP
  | some a, some b => some (a * b)
  | _, _ => none

/-- Addition on the `f32` model; NaN propagates. -/
def fadd : FP → FP → FP
  | some a, some b => some (a + b)
  | _, _ => none

/-- Subtraction on the `f32` model; NaN propagates. -/
def fsub : FP → FP → FP
  | some a, some b => some (a - b)
  | _, _ => none

/-- Division on the `f32` model; NaN propagates, and division by zero leaves
the model (it yields an infinity or NaN in `f32`), represented here as `none`.
The library only ever divides by the constant 60. -/
def fdiv : FP → FP → FP
  | some a, some b => if b = 0 then none else some (a / b)
  | _, _ => none

/-- Rust's `%` on the `f32` model; NaN propagates, `x % 0` is NaN. -/
def frem : FP → FP → FP
  | some a, some b => if b = 0 then none else some (qrem a b)
  | _, _ => none

/-- Absolute value (`f32::abs`); NaN propagates. -/
def fabs : FP → FP
  | some a => some |a|
  | none => none

/-- Rust's saturating cast `as u8` from `f32`: NaN goes to 0, values are
truncated toward zero and clamped into `[0, 255]`. -/
def toU8 : FP → ℕ
  | none => 0
  | some q => if q < 0 then 0 else min 255 (truncQ q).toNat

/-- Model of `bmp::Pixel`: an RGB byte triple. -/
structure Pixel where
  r : ℕ
  g : ℕ
  b : ℕ
deriving DecidableEq, Repr

/-- Model of `bmp::Pixel::new`. -/
def Pixel.new (r g b : ℕ) : Pixel := ⟨r, g, b⟩

/-- Error returned if any given value is not in its expected range
(`OutOfRangeValue` in `src/lib.rs`). -/
inductive OutOfRangeValue where
  | Hue
  | Saturation
  | Brightness
deriving DecidableEq, Repr

/-- Model of `hsv_to_rgb` from `src/lib.rs` (lines 367-399): validate the three
components in the order hue, saturation, brightness against
`(0.0..360.0)`, `(0.0..=1.0)`, `(0.0..=1.0)` and then apply the C/X/M sextant
formula, casting each channel to `u8`. -/
def hsv_to_rgb (hue saturation brightness : FP) : Except OutOfRangeValue Pixel :=
  if !(fle (some 0) hue && flt hue (some 360)) then
    .error .Hue
  else if !(fle (some 0) saturation && fle saturation (some 1)) then
    .error .Saturation
  else if !(fle (some 0) brightness && fle brightness (some 1)) then
    .error .Brightness
  else
    let c := fmul saturation brightness
    let x := fmul c (fsub (some 1) (fabs (fsub (frem (fdiv hue (some 60)) (some 2)) (some 1))))
    let m := fsub brightness c
    let rgb : FP × FP × FP :=
      if flt hue (some 60) then (c, x, some 0)
      else if flt hue (some 120) then (x, c, some 0)
      else if flt hue (some 180) then (some 0, c, x)
      else if flt hue (some 240) then (some 0, x, c)
      else if flt hue (some 300) then (x, some 0, c)
      else (c, some 0, x)
    .ok (Pixel.new
      (toU8 (fmul (fadd rgb.1 m) (some 255)))
      (toU8 (fmul (fadd rgb.2.1 m) (some 255)))
      (toU8 (fmul (fadd rgb.2.2 m) (some 255))))

instance : DecidableEq (Except OutOfRangeValue Pixel) := fun a b =>
  match a, b with
  | .error e₁, .error e₂ => decidable_of_iff (e₁ = e₂) (by simp)
  | .ok p₁, .ok p₂ => decidable_of_iff (p₁ = p₂) (by simp)
  | .error _, .ok _ => isFalse nofun
  | .ok _, .error _ => isFalse nofun

/-- Size of the image in pixels (`Size` in `src/lib.rs`); `u32` fields are
embedded as `ℕ`. -/
structure Size where
  width : ℕ
  height : ℕ
deriving DecidableEq, Repr

/-- Initial components of the pixel colors (`PixelInit` in `src/lib.rs`).
Each variant represents the component that will be randomized and stores the
two others. -/
inductive PixelInit where
  | Hue (saturation brightness : FP)
  | Saturation (hue brightness : FP)
  | Brightness (hue saturation : FP)
deriving DecidableEq, Repr

/-- Model of `PixelInit::valid_range` (`src/lib.rs` lines 116-122): the
`RangeInclusive<f32>` is embedded as a pair (start, end) of rationals. -/
def PixelInit.valid_range : PixelInit → ℚ × ℚ
  | .Hue _ _ => (0, 359.99)
  | .Saturation _ _ => (0, 1)
  | .Brightness _ _ => (0, 1)

/-- Parameters to construct the noise with (`NoiseOptions` in `src/lib.rs`);
`seed: i32` becomes `ℤ` and `frequency: f32` becomes `ℚ` (the noise collaborator
consumes it opaquely and no claim involves a NaN frequency). -/
structure NoiseOptions where
  seed : ℤ
  frequency : ℚ
deriving DecidableEq, Repr

/-- Modelled from the spec: one sample of the external coherent-noise
collaborator (`simdnoise`), whose code is not part of this repository.  The
concrete sample values are implementation-defined; this model hashes the
parameters and the sample index deterministically and scales the result
linearly into `[lo, hi]`, which realizes the spec contract (section 4.2):
deterministic in (width, height, frequency, seed) and every sample inside the
caller-supplied closed range. -/
def noiseSample (frequency : ℚ) (seed : ℤ) (lo hi : ℚ) (i : ℕ) : ℚ :=
  lo + (hi - lo) * ((seed.natAbs + frequency.num.natAbs + frequency.den + i) * 2654435761 % 1024 : ℕ) / 1024

/-- Modelled from the spec: the external noise collaborator's
`generate_scaled` (section 4.2 of the spec) — a dense row-major field of
`width * height` samples, each pre-scaled into `[lo, hi]`, a deterministic
function of (width, height, frequency, seed). -/
def noiseField (width height : ℕ) (frequency : ℚ) (seed : ℤ) (lo hi : ℚ) : List ℚ :=
  (List.range (width * height)).map (noiseSample frequency seed lo hi)

/-- Modelled from the spec: the pixel buffer of the external `bmp`
collaborator — a mutable 2-D grid of RGB triples addressed by (x, y). -/
structure Image where
  width : ℕ
  height : ℕ
  pixels : ℕ × ℕ → Pixel

/-- Modelled from the spec: `bmp::Image::new` creates the buffer with every
pixel black. -/
def Image.new (width height : ℕ) : Image :=
  ⟨width, height, fun _ => Pixel.new 0 0 0⟩

/-- Modelled from the spec: `bmp::Image::set_pixel` writes one buffer slot. -/
def Image.set_pixel (img : Image) (c : ℕ × ℕ) (px : Pixel) : Image :=
  { img with pixels := fun c' => if c' = c then px else img.pixels c' }

/-- Modelled from the spec: `bmp::Image::get_pixel` reads one buffer slot. -/
def Image.get_pixel (img : Image) (c : ℕ × ℕ) : Pixel :=
  img.pixels c

/-- Modelled from the spec: `bmp::Image::coordinates` iterates every (x, y) in
row-major order (x fastest). -/
def coordinates (width height : ℕ) : List (ℕ × ℕ) :=
  (List.range height).flatMap (fun y => (List.range width).map (fun x => (x, y)))

/-- The body of `generate_image`'s `match pixel_init` (`src/lib.rs` lines
158-165): substitute the noise value for the free HSV component and convert. -/
def pixel_value (pixel_init : PixelInit) (noise_value : FP) : Except OutOfRangeValue Pixel :=
  match pixel_init with
  | .Hue saturation brightness => hsv_to_rgb noise_value saturation brightness
  | .Saturation hue brightness => hsv_to_rgb hue noise_value brightness
  | .Brightness hue saturation => hsv_to_rgb hue saturation noise_value

/-- The `for (x, y) in image.coordinates()` loop of `generate_image`
(`src/lib.rs` lines 156-168): compute each pixel, aborting on the first error
(the `?` operator), otherwise write it into the buffer. -/
def renderLoop (f : ℕ × ℕ → Except OutOfRangeValue Pixel) :
    List (ℕ × ℕ) → Image → Except OutOfRangeValue Image
  | [], image => .ok image
  | c :: rest, image =>
    match f c with
    | .error e => .error e
    | .ok px => renderLoop f rest (image.set_pixel c px)

/-- Model of `generate_image` (`src/lib.rs` lines 141-171): build the noise
field scaled into `pixel_init.valid_range()`, then fill a fresh buffer pixel by
pixel, reading the noise sample at row-major index `width * y + x`. -/
def generate_image (size : Size) (pixel_init : PixelInit) (noise_options : NoiseOptions) :
    Except OutOfRangeValue Image :=
  let noise_range := pixel_init.valid_range
  let noise := noiseField size.width size.height noise_options.frequency noise_options.seed
    noise_range.1 noise_range.2
  renderLoop
    (fun c => pixel_value pixel_init (some (noise.getD (size.width * c.2 + c.1) 0)))
    (coordinates size.width size.height)
    (Image.new size.width size.height)

/-- Definition following the words of the specification (section 4.3): the
C/X/M sextant formula over exact rationals, with the floating-point remainder
written out as `qrem` and the byte conversion "truncated (not rounded) ... by
discarding the fractional part". -/
def spec_hsv_formula (hue saturation brightness : ℚ) : Pixel :=
  let c := saturation * brightness
  let x := c * (1 - |qrem (hue / 60) 2 - 1|)
  let m := brightness - c
  let rgb : ℚ × ℚ × ℚ :=
    if 0 ≤ hue ∧ hue < 60 then (c, x, 0)
    else if 60 ≤ hue ∧ hue < 120 then (x, c, 0)
    else if 120 ≤ hue ∧ hue < 180 then (0, c, x)
    else if 180 ≤ hue ∧ hue < 240 then (0, x, c)
    else if 240 ≤ hue ∧ hue < 300 then (x, 0, c)
    else (c, 0, x)
  ⟨(truncQ ((rgb.1 + m) * 255)).toNat,
   (truncQ ((rgb.2.1 + m) * 255)).toNat,
   (truncQ ((rgb.2.2 + m) * 255)).toNat⟩

section StringModel

/-- Decimal rendering of a natural number, the semantics of Rust's `Display`
for `u32` used by `Display for Size` (`src/lib.rs` lines 93-97). -/
def natToString (n : ℕ) : List Char :=
  if n = 0 then ['0']
  else (Nat.digits 10 n).reverse.map (fun d => Char.ofNat (48 + d))

/-- Decimal digit test (ASCII `'0'`-`'9'`). -/
def isDigitChar (c : Char) : Bool :=
  decide (48 ≤ c.toNat) && decide (c.toNat ≤ 57)

/-- Semantics of Rust's `u32::from_str`: an optional leading `'+'`, then a
non-empty run of decimal digits whose value fits in 32 bits; anything else is
a parse error (modelled as `none`). -/
def parseU32 (s : List Char) : Option ℕ :=
  let t := match s with
    | '+' :: rest => rest
    | _ => s
  if t = [] then none
  else if !t.all isDigitChar then none
  else
    let v := Nat.ofDigits 10 ((t.map (fun c => c.toNat - 48)).reverse)
    if v < 2 ^ 32 then some v else none

/-- Semantics of Rust's `str::split(sep)`: the list of chunks between
occurrences of the separator (always at least one chunk). -/
def splitChar (sep : Char) : List Char → List (List Char)
  | [] => [[]]
  | c :: rest =>
    if c = sep then [] :: splitChar sep rest
    else
      match splitChar sep rest with
      | chunk :: chunks => (c :: chunk) :: chunks
      | [] => [[c]]

/-- Model of `impl FromStr for Size` (`src/lib.rs` lines 81-92): split on
`'x'`, parse the first chunk as the width and the second as the height (a
missing chunk is `unwrap_or_default()`-ed to the empty string, which fails to
parse). -/
def size_from_str (s : List Char) : Option Size := do
  let dim := splitChar 'x' s
  let width ← parseU32 (dim.getD 0 [])
  let height ← parseU32 (dim.getD 1 [])
  pure ⟨width, height⟩

/-- Model of `impl Display for Size` (`src/lib.rs` lines 93-97): `"WxH"`. -/
def size_display (size : Size) : List Char :=
  natToString size.width ++ 'x' :: natToString size.height

end StringModel

/-! Basic rewriting lemmas for the `f32` model. -/

@[simp] theorem fle_some_some (a b : ℚ) : fle (some a) (some b) = decide (a ≤ b) := rfl

@[simp] theorem flt_some_some (a b : ℚ) : flt (some a) (some b) = decide (a < b) := rfl

@[simp] theorem fle_none_left (a : FP) : fle none a = false := by cases a <;> rfl

@[simp] theorem fle_none_right (a : FP) : fle a none = false := by cases a <;> rfl

@[simp] theorem flt_none_left (a : FP) : flt none a = false := by cases a <;> rfl

@[simp] theorem flt_none_right (a : FP) : flt a none = false := by cases a <;> rfl

@[simp] theorem fmul_some (a b : ℚ) : fmul (some a) (some b) = some (a * b) := rfl

@[simp] theorem fadd_some (a b : ℚ) : fadd (some a) (some b) = some (a + b) := rfl

@[simp] theorem fsub_some (a b : ℚ) : fsub (some a) (some b) = some (a - b) := rfl

@[simp] theorem fabs_some (a : ℚ) : fabs (some a) = some |a| := rfl

@[simp] theorem fdiv_some_sixty (a : ℚ) : fdiv (some a) (some 60) = some (a / 60) := by
  norm_num [fdiv]

@[simp] theorem frem_some_two (a : ℚ) : frem (some a) (some 2) = some (qrem a 2) := by
  norm_num [frem]

/-- Truncation agrees with the floor on nonnegative arguments. -/
theorem truncQ_of_nonneg {q : ℚ} (h : 0 ≤ q) : truncQ q = ⌊q⌋ := if_pos h

/-- The saturating `as u8` cast is plain truncation on values in `[0, 255]`. -/
theorem toU8_eq_trunc {q : ℚ} (h0 : 0 ≤ q) (h255 : q ≤ 255) :
    toU8 (some q) = (truncQ q).toNat := by
  have hfl : ⌊q⌋ ≤ 255 := by
    have := Int.floor_le_floor h255
    simpa using this
  have hmin : min 255 (truncQ q).toNat = (truncQ q).toNat := by
    rw [truncQ_of_nonneg h0]
    omega
  simp [toU8, not_lt.mpr h0, hmin]

/-- The floating-point remainder by 2 of a nonnegative value lies in `[0, 2)`. -/
theorem qrem_two_bounds {a : ℚ} (ha : 0 ≤ a) : 0 ≤ qrem a 2 ∧ qrem a 2 < 2 := by
  have h2 : (0 : ℚ) ≤ a / 2 := by positivity
  have hfl := Int.floor_le (a / 2)
  have hcl := Int.lt_floor_add_one (a / 2)
  unfold qrem
  rw [truncQ_of_nonneg h2]
  constructor <;> [linarith; linarith]

/-! Shape lemmas for `hsv_to_rgb`: the three validation gates, in order. -/

/-- A hue outside `[0, 360)` (or a NaN hue) makes `hsv_to_rgb` fail with
`Hue`, whatever the other components are. -/
theorem hsv_to_rgb_hue_fail {hue : FP} (saturation brightness : FP)
    (h : (fle (some 0) hue && flt hue (some 360)) = false) :
    hsv_to_rgb hue saturation brightness = .error .Hue := by
  simp [hsv_to_rgb, h]

/-- With an in-range hue, a saturation outside `[0, 1]` (or a NaN saturation)
makes `hsv_to_rgb` fail with `Saturation`. -/
theorem hsv_to_rgb_sat_fail {hue saturation : FP} (brightness : FP)
    (h1 : (fle (some 0) hue && flt hue (some 360)) = true)
    (h2 : (fle (some 0) saturation && fle saturation (some 1)) = false) :
    hsv_to_rgb hue saturation brightness = .error .Saturation := by
  simp [hsv_to_rgb, h1, h2]

/-- With in-range hue and saturation, a brightness outside `[0, 1]` (or a NaN
brightness) makes `hsv_to_rgb` fail with `Brightness`. -/
theorem hsv_to_rgb_bri_fail {hue saturation brightness : FP}
    (h1 : (fle (some 0) hue && flt hue (some 360)) = true)
    (h2 : (fle (some 0) saturation && fle saturation (some 1)) = true)
    (h3 : (fle (some 0) brightness && fle brightness (some 1)) = false) :
    hsv_to_rgb hue saturation brightness = .error .Brightness := by
  simp [hsv_to_rgb, h1, h2, h3]

/-- On valid inputs `hsv_to_rgb` succeeds and computes exactly the C/X/M
sextant formula written in the specification. -/
theorem hsv_to_rgb_valid {h s b : ℚ} (hh0 : 0 ≤ h) (hh1 : h < 360)
    (hs0 : 0 ≤ s) (hs1 : s ≤ 1) (hb0 : 0 ≤ b) (hb1 : b ≤ 1) :
    hsv_to_rgb (some h) (some s) (some b) = .ok (spec_hsv_formula h s b) := by
  have hq0 : (0 : ℚ) ≤ h / 60 := by positivity
  obtain ⟨hr0, hr2⟩ := qrem_two_bounds hq0
  have habs : |qrem (h / 60) 2 - 1| ≤ 1 := abs_le.mpr ⟨by linarith, by linarith⟩
  have habs0 : 0 ≤ |qrem (h / 60) 2 - 1| := abs_nonneg _
  have hc0 : 0 ≤ s * b := mul_nonneg hs0 hb0
  have hcb : s * b ≤ b := mul_le_of_le_one_left hb0 hs1
  have hx0 : 0 ≤ s * b * (1 - |qrem (h / 60) 2 - 1|) := by nlinarith
  have hxc : s * b * (1 - |qrem (h / 60) 2 - 1|) ≤ s * b := by nlinarith
  have chan : ∀ t : ℚ, 0 ≤ t → t ≤ s * b →
      toU8 (some ((t + (b - s * b)) * 255)) = (truncQ ((t + (b - s * b)) * 255)).toNat := by
    intro t ht0 htc
    exact toU8_eq_trunc (by nlinarith) (by nlinarith)
  have chan0 := chan 0 le_rfl hc0
  have chanC := chan (s * b) hc0 le_rfl
  have chanX := chan _ hx0 hxc
  rw [zero_add] at chan0
  have chanB : toU8 (some (b * 255)) = (truncQ (b * 255)).toNat :=
    toU8_eq_trunc (by nlinarith) (by nlinarith)
  simp only [hsv_to_rgb, fle_some_some, flt_some_some, fdiv_some_sixty, frem_some_two,
    fabs_some, fmul_some, fadd_some, fsub_some, spec_hsv_formula, hh0, hh1, hs0, hs1,
    hb0, hb1, Bool.and_self, Bool.not_true, Bool.false_eq_true, if_false]
  rcases lt_or_le h 60 with h60 | h60
  · simp [h60, hh0, chanC, chanX, chan0, chanB, Pixel.new]
  · rcases lt_or_le h 120 with h120 | h120
    · simp [not_lt.mpr h60, h60, h120, chanC, chanX, chan0, chanB, Pixel.new]
    · rcases lt_or_le h 180 with h180 | h180
      · simp [not_lt.mpr h60, not_lt.mpr h120, h120, h180, chanC, chanX, chan0, chanB, Pixel.new]
      · rcases lt_or_le h 240 with h240 | h240
        · simp [not_lt.mpr h60, not_lt.mpr h120, not_lt.mpr h180, h180, h240,
            chanC, chanX, chan0, chanB, Pixel.new]
        · rcases lt_or_le h 300 with h300 | h300
          · simp [not_lt.mpr h60, not_lt.mpr h120, not_lt.mpr h180, not_lt.mpr h240,
              h240, h300, chanC, chanX, chan0, chanB, Pixel.new]
          · simp [not_lt.mpr h60, not_lt.mpr h120, not_lt.mpr h180, not_lt.mpr h240,
              not_lt.mpr h300, h300, hh1, chanC, chanX, chan0, chanB, Pixel.new]

/-! Bridging lemmas between the Bool validation gates and propositions. -/

/-- The hue gate accepts exactly the rationals in `[0, 360)`. -/
theorem hueGate (h : ℚ) :
    (fle (some 0) (some h) && flt (some h) (some 360)) = true ↔ (0 ≤ h ∧ h < 360) := by
  simp

/-- The saturation/brightness gate accepts exactly the rationals in `[0, 1]`. -/
theorem unitGate (v : ℚ) :
    (fle (some 0) (some v) && fle (some v) (some 1)) = true ↔ (0 ≤ v ∧ v ≤ 1) := by
  simp

/-- Negative form of `hueGate`. -/
theorem hueGate_false {h : ℚ} (hh : ¬(0 ≤ h ∧ h < 360)) :
    (fle (some 0) (some h) && flt (some h) (some 360)) = false :=
  Bool.eq_false_iff.mpr (fun ht => hh ((hueGate h).mp ht))

/-- Negative form of `unitGate`. -/
theorem unitGate_false {v : ℚ} (hv : ¬(0 ≤ v ∧ v ≤ 1)) :
    (fle (some 0) (some v) && fle (some v) (some 1)) = false :=
  Bool.eq_false_iff.mpr (fun ht => hv ((unitGate v).mp ht))

/-! Lemmas about the coordinate list, the render loop and the noise model. -/

/-- Membership in the coordinate sweep is exactly being inside the grid. -/
theorem mem_coordinates {w hgt x y : ℕ} :
    (x, y) ∈ coordinates w hgt ↔ x < w ∧ y < hgt := by
  simp only [coordinates, List.mem_flatMap, List.mem_map, List.mem_range, Prod.mk.injEq]
  constructor
  · rintro ⟨y0, hy0, x0, hx0, rfl, rfl⟩
    exact ⟨hx0, hy0⟩
  · rintro ⟨hx, hy⟩
    exact ⟨y, hy, x, hx, rfl, rfl⟩

/-- The coordinate sweep visits each coordinate once. -/
theorem nodup_coordinates (w hgt : ℕ) : (coordinates w hgt).Nodup := by
  refine List.nodup_flatMap.mpr ⟨?_, ?_⟩
  · intro y _
    exact (List.nodup_range w).map (fun a b hab => by simpa using congrArg Prod.fst hab)
  · refine (List.pairwise_lt_range hgt).imp ?_
    intro y1 y2 hlt p hp1 hp2
    obtain ⟨x1, _, rfl⟩ := List.mem_map.mp hp1
    obtain ⟨x2, _, hx2⟩ := List.mem_map.mp hp2
    exact absurd (congrArg Prod.snd hx2) (by simpa using hlt.ne')

/-- A nonempty grid has a nonempty coordinate sweep. -/
theorem coordinates_ne_nil {w hgt : ℕ} (hw : 0 < w) (hh : 0 < hgt) :
    coordinates w hgt ≠ [] :=
  List.ne_nil_of_mem (mem_coordinates.mpr ⟨hw, hh⟩)

/-- Pixels not written by the loop keep their previous value. -/
theorem renderLoop_get_of_not_mem {f : ℕ × ℕ → Except OutOfRangeValue Pixel} :
    ∀ {cs : List (ℕ × ℕ)} {img img' : Image}, renderLoop f cs img = .ok img' →
      ∀ {c : ℕ × ℕ}, c ∉ cs → img'.get_pixel c = img.get_pixel c := by
  intro cs
  induction cs with
  | nil =>
    intro img img' hres c _
    cases hres
    rfl
  | cons c0 rest ih =>
    intro img img' hres c hc
    rw [renderLoop] at hres
    cases hf : f c0 with
    | error e => rw [hf] at hres; cases hres
    | ok px =>
      rw [hf] at hres
      have h1 : c ∉ rest := fun h => hc (List.mem_cons_of_mem _ h)
      have h2 : c ≠ c0 := fun h => hc (h ▸ List.mem_cons_self _ _)
      rw [ih hres h1]
      simp [Image.set_pixel, Image.get_pixel, h2]

/-- If the loop succeeds, every visited coordinate holds the pixel its own
computation produced. -/
theorem renderLoop_get_of_mem {f : ℕ × ℕ → Except OutOfRangeValue Pixel} :
    ∀ {cs : List (ℕ × ℕ)} {img img' : Image} {c : ℕ × ℕ}, cs.Nodup →
      renderLoop f cs img = .ok img' → c ∈ cs →
      ∃ px, f c = .ok px ∧ img'.get_pixel c = px := by
  intro cs
  induction cs with
  | nil =>
    intro img img' c _ _ hc
    cases hc
  | cons c0 rest ih =>
    intro img img' c hnd hres hc
    rw [renderLoop] at hres
    cases hf : f c0 with
    | error e => rw [hf] at hres; cases hres
    | ok px =>
      rw [hf] at hres
      rcases List.mem_cons.mp hc with rfl | hmem
      · refine ⟨px, hf, ?_⟩
        rw [renderLoop_get_of_not_mem hres (List.nodup_cons.mp hnd).1]
        simp [Image.set_pixel, Image.get_pixel]
      · exact ih (List.nodup_cons.mp hnd).2 hres hmem

/-- A failing loop fails at the first coordinate whose computation errs, and
every coordinate before it computed successfully. -/
theorem renderLoop_error_first {f : ℕ × ℕ → Except OutOfRangeValue Pixel} :
    ∀ {cs : List (ℕ × ℕ)} {img : Image} {e : OutOfRangeValue},
      renderLoop f cs img = .error e →
      ∃ l₁ c l₂, cs = l₁ ++ c :: l₂ ∧ f c = .error e ∧
        ∀ c' ∈ l₁, ∃ px, f c' = .ok px := by
  intro cs
  induction cs with
  | nil => intro img e hres; cases hres
  | cons c0 rest ih =>
    intro img e hres
    rw [renderLoop] at hres
    cases hf : f c0 with
    | error e0 =>
      rw [hf] at hres
      cases hres
      exact ⟨[], c0, rest, rfl, hf, by simp⟩
    | ok px =>
      rw [hf] at hres
      obtain ⟨l₁, c, l₂, hcs, hfc, hpre⟩ := ih hres
      refine ⟨c0 :: l₁, c, l₂, by rw [hcs, List.cons_append], hfc, ?_⟩
      intro c' hc'
      rcases List.mem_cons.mp hc' with rfl | hmem
      · exact ⟨px, hf⟩
      · exact hpre c' hmem

/-- Every sample of the modelled noise field lies in the requested range. -/
theorem noiseSample_mem {lo hi : ℚ} (hle : lo ≤ hi) (freq : ℚ) (seed : ℤ) (i : ℕ) :
    lo ≤ noiseSample freq seed lo hi i ∧ noiseSample freq seed lo hi i ≤ hi := by
  unfold noiseSample
  set k : ℕ := (seed.natAbs + freq.num.natAbs + freq.den + i) * 2654435761 % 1024 with hk
  have hklt : k < 1024 := Nat.mod_lt _ (by norm_num)
  have hk0 : (0 : ℚ) ≤ (k : ℚ) := Nat.cast_nonneg k
  have hk1 : (k : ℚ) ≤ 1024 := by exact_mod_cast hklt.le
  have hd : (0 : ℚ) ≤ hi - lo := sub_nonneg.mpr hle
  constructor
  · have : 0 ≤ (hi - lo) * (k : ℚ) / 1024 := by positivity
    linarith
  · have : (hi - lo) * (k : ℚ) / 1024 ≤ hi - lo := by
      rw [div_le_iff₀ (by norm_num : (0 : ℚ) < 1024)]
      nlinarith
    linarith

/-- Every value read from the modelled noise field (the out-of-bounds default
included, which only a zero-sized field could produce) lies in `[lo, hi]` as
long as that interval contains 0. -/
theorem noiseField_getD_mem {lo hi : ℚ} (hlo : lo ≤ 0) (hhi : 0 ≤ hi)
    (w hgt : ℕ) (freq : ℚ) (seed : ℤ) (i : ℕ) :
    lo ≤ (noiseField w hgt freq seed lo hi).getD i 0 ∧
      (noiseField w hgt freq seed lo hi).getD i 0 ≤ hi := by
  have hle : lo ≤ hi := hlo.trans hhi
  by_cases h2 : i < (noiseField w hgt freq seed lo hi).length
  · rw [List.getD_eq_getElem _ _ h2]
    have hget : (noiseField w hgt freq seed lo hi)[i] = noiseSample freq seed lo hi i := by
      simp [noiseField]
    rw [hget]
    exact noiseSample_mem hle freq seed i
  · rw [List.getD_eq_default _ _ (le_of_not_lt h2)]
    exact ⟨hlo, hhi⟩

/-! Claim theorems. -/

/-- C1: `hsv_to_rgb(hue, saturation, brightness)` returns Ok exactly when
0 ≤ hue < 360, 0 ≤ saturation ≤ 1 and 0 ≤ brightness ≤ 1 all hold; when it
fails, the error names the first violated component in the fixed check order
hue, saturation, brightness; in particular `hsv_to_rgb(360,0.5,0.5)` and
`hsv_to_rgb(-1,0.5,0.5)` fail with Hue, `hsv_to_rgb(180,1.5,0.5)` fails with
Saturation and `hsv_to_rgb(180,0.5,-0.1)` fails with Brightness. -/
theorem hsv_to_rgb_ok_iff_in_range :
    (∀ h s b : ℚ,
      ((∃ px, hsv_to_rgb (some h) (some s) (some b) = .ok px) ↔
        (0 ≤ h ∧ h < 360 ∧ 0 ≤ s ∧ s ≤ 1 ∧ 0 ≤ b ∧ b ≤ 1))
      ∧ (¬(0 ≤ h ∧ h < 360) →
          hsv_to_rgb (some h) (some s) (some b) = .error .Hue)
      ∧ ((0 ≤ h ∧ h < 360) → ¬(0 ≤ s ∧ s ≤ 1) →
          hsv_to_rgb (some h) (some s) (some b) = .error .Saturation)
      ∧ ((0 ≤ h ∧ h < 360) → (0 ≤ s ∧ s ≤ 1) → ¬(0 ≤ b ∧ b ≤ 1) →
          hsv_to_rgb (some h) (some s) (some b) = .error .Brightness))
    ∧ hsv_to_rgb (some 360) (some (1/2)) (some (1/2)) = .error .Hue
    ∧ hsv_to_rgb (some (-1)) (some (1/2)) (some (1/2)) = .error .Hue
    ∧ hsv_to_rgb (some 180) (some (3/2)) (some (1/2)) = .error .Saturation
    ∧ hsv_to_rgb (some 180) (some (1/2)) (some (-1/10)) = .error .Brightness := by
  have herr : ∀ h s b : ℚ,
      (¬(0 ≤ h ∧ h < 360) → hsv_to_rgb (some h) (some s) (some b) = .error .Hue)
      ∧ ((0 ≤ h ∧ h < 360) → ¬(0 ≤ s ∧ s ≤ 1) →
          hsv_to_rgb (some h) (some s) (some b) = .error .Saturation)
      ∧ ((0 ≤ h ∧ h < 360) → (0 ≤ s ∧ s ≤ 1) → ¬(0 ≤ b ∧ b ≤ 1) →
          hsv_to_rgb (some h) (some s) (some b) = .error .Brightness) := by
    intro h s b
    refine ⟨fun h1 => hsv_to_rgb_hue_fail _ _ (hueGate_false h1),
      fun h1 h2 => hsv_to_rgb_sat_fail _ ((hueGate h).mpr h1) (unitGate_false h2),
      fun h1 h2 h3 => hsv_to_rgb_bri_fail ((hueGate h).mpr h1) ((unitGate s).mpr h2)
        (unitGate_false h3)⟩
  refine ⟨fun h s b => ⟨⟨?_, ?_⟩, herr h s b⟩, ?_, ?_, ?_, ?_⟩
  · rintro ⟨px, hok⟩
    by_cases h1 : 0 ≤ h ∧ h < 360
    · by_cases h2 : 0 ≤ s ∧ s ≤ 1
      · by_cases h3 : 0 ≤ b ∧ b ≤ 1
        · exact ⟨h1.1, h1.2, h2.1, h2.2, h3.1, h3.2⟩
        · rw [(herr h s b).2.2 h1 h2 h3] at hok; cases hok
      · rw [(herr h s b).2.1 h1 h2] at hok; cases hok
    · rw [(herr h s b).1 h1] at hok; cases hok
  · rintro ⟨a1, a2, a3, a4, a5, a6⟩
    exact ⟨_, hsv_to_rgb_valid a1 a2 a3 a4 a5 a6⟩
  · exact (herr 360 (1/2) (1/2)).1 (by norm_num)
  · exact (herr (-1) (1/2) (1/2)).1 (by norm_num)
  · exact (herr 180 (3/2) (1/2)).2.1 (by norm_num) (by norm_num)
  · exact (herr 180 (1/2) (-1/10)).2.2 (by norm_num) (by norm_num) (by norm_num)

/-- Witness for C1: the theorem applied at the concrete input (50, 2, 0),
discharging the range hypotheses there. -/
theorem hsv_to_rgb_ok_iff_in_range_witness :
    hsv_to_rgb (some 50) (some 2) (some 0) = .error .Saturation :=
  (hsv_to_rgb_ok_iff_in_range.1 50 2 0).2.2.1 (by norm_num) (by norm_num)

/-- C2: `hsv_to_rgb` computes the documented C/X/M sextant formula on every
valid input, and in particular maps (0,0,0) to black, (0,1,1) to red,
(120,1,1) to green, (240,1,1) to blue and (0,0,1) to white. -/
theorem hsv_to_rgb_matches_spec_formula :
    (∀ h s b : ℚ, 0 ≤ h → h < 360 → 0 ≤ s → s ≤ 1 → 0 ≤ b → b ≤ 1 →
      hsv_to_rgb (some h) (some s) (some b) = .ok (spec_hsv_formula h s b))
    ∧ hsv_to_rgb (some 0) (some 0) (some 0) = .ok (Pixel.new 0 0 0)
    ∧ hsv_to_rgb (some 0) (some 1) (some 1) = .ok (Pixel.new 255 0 0)
    ∧ hsv_to_rgb (some 120) (some 1) (some 1) = .ok (Pixel.new 0 255 0)
    ∧ hsv_to_rgb (some 240) (some 1) (some 1) = .ok (Pixel.new 0 0 255)
    ∧ hsv_to_rgb (some 0) (some 0) (some 1) = .ok (Pixel.new 255 255 255) := by
  refine ⟨fun h s b a1 a2 a3 a4 a5 a6 => hsv_to_rgb_valid a1 a2 a3 a4 a5 a6, ?_, ?_, ?_, ?_, ?_⟩
  · rw [hsv_to_rgb_valid (by norm_num) (by norm_num) (by norm_num) (by norm_num)
      (by norm_num) (by norm_num)]
    norm_num [spec_hsv_formula, qrem, truncQ, Pixel.new] <;> decide
  · rw [hsv_to_rgb_valid (by norm_num) (by norm_num) (by norm_num) (by norm_num)
      (by norm_num) (by norm_num)]
    norm_num [spec_hsv_formula, qrem, truncQ, Pixel.new] <;> decide
  · rw [hsv_to_rgb_valid (by norm_num) (by norm_num) (by norm_num) (by norm_num)
      (by norm_num) (by norm_num)]
    norm_num [spec_hsv_formula, qrem, truncQ, Pixel.new] <;> decide
  · rw [hsv_to_rgb_valid (by norm_num) (by norm_num) (by norm_num) (by norm_num)
      (by norm_num) (by norm_num)]
    norm_num [spec_hsv_formula, qrem, truncQ, Pixel.new] <;> decide
  · rw [hsv_to_rgb_valid (by norm_num) (by norm_num) (by norm_num) (by norm_num)
      (by norm_num) (by norm_num)]
    norm_num [spec_hsv_formula, qrem, truncQ, Pixel.new] <;> decide

/-- Witness for C2: the general formula conjunct applied at (300, 1, 1). -/
theorem hsv_to_rgb_matches_spec_formula_witness :
    hsv_to_rgb (some 300) (some 1) (some 1) = .ok (spec_hsv_formula 300 1 1) :=
  hsv_to_rgb_matches_spec_formula.1 300 1 1 (by norm_num) (by norm_num) (by norm_num)
    (by norm_num) (by norm_num) (by norm_num)

/-- C7: the byte conversion truncates toward zero instead of rounding: at
hue 0, saturation 0 and brightness 638/1275 each channel's exact value is
638/5 = 127.6, strictly between 127 and 128; the emitted byte is 127 even
though rounding to the nearest integer would give 128. -/
theorem hsv_to_rgb_truncates_not_rounds :
    hsv_to_rgb (some 0) (some 0) (some (638/1275)) = .ok (Pixel.new 127 127 127)
    ∧ (638/1275 : ℚ) * 255 = 638/5
    ∧ (127 : ℚ) < 638/5 ∧ (638/5 : ℚ) < 128
    ∧ round (638/5 : ℚ) = 128 := by
  refine ⟨?_, by norm_num, by norm_num, by norm_num, by norm_num [round_eq]⟩
  rw [hsv_to_rgb_valid (by norm_num) (by norm_num) (by norm_num) (by norm_num)
    (by norm_num) (by norm_num)]
  norm_num [spec_hsv_formula, qrem, truncQ, Pixel.new] <;> decide

/-- C9: `hsv_to_rgb` never returns Ok when any argument is NaN; a NaN hue
yields the Hue error, a NaN saturation (with in-range hue) the Saturation
error, and a NaN brightness (with in-range hue and saturation) the Brightness
error, because every range check rejects NaN. -/
theorem hsv_to_rgb_rejects_nan :
    (∀ h s b : FP, (h = none ∨ s = none ∨ b = none) →
      ∀ px, hsv_to_rgb h s b ≠ .ok px)
    ∧ (∀ s b : FP, hsv_to_rgb none s b = .error .Hue)
    ∧ (∀ h : ℚ, 0 ≤ h → h < 360 → ∀ b : FP,
        hsv_to_rgb (some h) none b = .error .Saturation)
    ∧ (∀ h s : ℚ, 0 ≤ h → h < 360 → 0 ≤ s → s ≤ 1 →
        hsv_to_rgb (some h) (some s) none = .error .Brightness) := by
  have hhue : ∀ s b : FP, hsv_to_rgb none s b = .error .Hue := fun s b =>
    hsv_to_rgb_hue_fail _ _ (by simp)
  have hsat : ∀ h : ℚ, 0 ≤ h → h < 360 → ∀ b : FP,
      hsv_to_rgb (some h) none b = .error .Saturation := fun h h0 h1 b =>
    hsv_to_rgb_sat_fail _ ((hueGate h).mpr ⟨h0, h1⟩) (by simp)
  have hbri : ∀ h s : ℚ, 0 ≤ h → h < 360 → 0 ≤ s → s ≤ 1 →
      hsv_to_rgb (some h) (some s) none = .error .Brightness := fun h s h0 h1 s0 s1 =>
    hsv_to_rgb_bri_fail ((hueGate h).mpr ⟨h0, h1⟩) ((unitGate s).mpr ⟨s0, s1⟩) (by simp)
  refine ⟨?_, hhue, hsat, hbri⟩
  rintro h s b (rfl | rfl | rfl) px hok
  · rw [hhue s b] at hok; cases hok
  · cases h with
    | none => rw [hhue none b] at hok; cases hok
    | some qh =>
      by_cases hr : 0 ≤ qh ∧ qh < 360
      · rw [hsat qh hr.1 hr.2 b] at hok; cases hok
      · rw [hsv_to_rgb_hue_fail _ _ (hueGate_false hr)] at hok; cases hok
  · cases h with
    | none => rw [hhue s none] at hok; cases hok
    | some qh =>
      by_cases hr : 0 ≤ qh ∧ qh < 360
      · cases s with
        | none => rw [hsat qh hr.1 hr.2 none] at hok; cases hok
        | some qs =>
          by_cases hs : 0 ≤ qs ∧ qs ≤ 1
          · rw [hbri qh qs hr.1 hr.2 hs.1 hs.2] at hok; cases hok
          · rw [hsv_to_rgb_sat_fail _ ((hueGate qh).mpr hr) (unitGate_false hs)] at hok
            cases hok
      · rw [hsv_to_rgb_hue_fail _ _ (hueGate_false hr)] at hok; cases hok

/-- Witness for C9: the theorem applied at a NaN brightness with concrete
in-range hue and saturation. -/
theorem hsv_to_rgb_rejects_nan_witness :
    hsv_to_rgb (some 10) (some (1/2)) none = .error .Brightness :=
  hsv_to_rgb_rejects_nan.2.2.2 10 (1/2) (by norm_num) (by norm_num) (by norm_num)
    (by norm_num)

/-- A loop whose first computation fails aborts immediately with that error. -/
theorem renderLoop_cons_error {f : ℕ × ℕ → Except OutOfRangeValue Pixel}
    {c : ℕ × ℕ} {rest : List (ℕ × ℕ)} {img : Image} {e : OutOfRangeValue}
    (hf : f c = .error e) : renderLoop f (c :: rest) img = .error e := by
  rw [renderLoop, hf]

/-- Helper shared by several claims: with the invalid fixed saturation 2.0 and
brightness 0.5 of the Hue variant, generation of any nonempty image fails with
the Saturation error at the very first pixel (the noise-driven hue always
passes its own gate because the field is scaled into `[0, 359.99]`). -/
theorem generate_image_hue2_sat_error (size : Size) (o : NoiseOptions)
    (hw : 0 < size.width) (hh : 0 < size.height) :
    generate_image size (.Hue (some 2) (some (1/2))) o = .error .Saturation := by
  obtain ⟨c0, rest, hco⟩ := List.exists_cons_of_ne_nil (coordinates_ne_nil hw hh)
  have hferr : ∀ i : ℕ,
      pixel_value (.Hue (some 2) (some (1/2)))
        (some ((noiseField size.width size.height o.frequency o.seed 0 359.99).getD i 0))
      = .error .Saturation := by
    intro i
    obtain ⟨hv0, hv1⟩ := @noiseField_getD_mem 0 359.99 (le_refl 0) (by norm_num)
      size.width size.height o.frequency o.seed i
    show hsv_to_rgb _ _ _ = _
    exact hsv_to_rgb_sat_fail _ ((hueGate _).mpr ⟨hv0, by nlinarith⟩)
      (unitGate_false (by norm_num))
  simp only [generate_image, PixelInit.valid_range, hco]
  exact renderLoop_cons_error (hferr _)

/-- C3: every pixel of a successfully generated image equals the color
conversion of the noise sample at row-major index `width*y+x` merged with the
fixed components, the sample having been scaled into `pixel_init.valid_range()`,
which is `[0, 359.99]` for the Hue variant and `[0, 1]` for the Saturation and
Brightness variants. -/
theorem generate_image_pixel_formula :
    (∀ (size : Size) (pixel_init : PixelInit) (noise_options : NoiseOptions)
        (img : Image) (x y : ℕ),
      generate_image size pixel_init noise_options = .ok img →
      x < size.width → y < size.height →
      ∃ px,
        pixel_value pixel_init
          (some ((noiseField size.width size.height noise_options.frequency
            noise_options.seed pixel_init.valid_range.1 pixel_init.valid_range.2).getD
            (size.width * y + x) 0)) = .ok px
        ∧ img.get_pixel (x, y) = px)
    ∧ (∀ a b : FP, PixelInit.valid_range (.Hue a b) = (0, 359.99))
    ∧ (∀ a b : FP, PixelInit.valid_range (.Saturation a b) = (0, 1))
    ∧ (∀ a b : FP, PixelInit.valid_range (.Brightness a b) = (0, 1)) := by
  refine ⟨?_, fun a b => rfl, fun a b => rfl, fun a b => rfl⟩
  intro size pixel_init noise_options img x y hres hx hy
  simp only [generate_image] at hres
  simpa using renderLoop_get_of_mem (nodup_coordinates _ _) hres
    (mem_coordinates.mpr ⟨hx, hy⟩)

/-- C4: image generation is deterministic — identical size, pixel
initialization and noise options produce identical results. -/
theorem generate_image_deterministic :
    ∀ (size₁ size₂ : Size) (p₁ p₂ : PixelInit) (o₁ o₂ : NoiseOptions),
      size₁ = size₂ → p₁ = p₂ → o₁ = o₂ →
      generate_image size₁ p₁ o₁ = generate_image size₂ p₂ o₂ := by
  intro size₁ size₂ p₁ p₂ o₁ o₂ h1 h2 h3
  rw [h1, h2, h3]

/-- Witness for C4: the theorem applied at concrete equal inputs. -/
theorem generate_image_deterministic_witness :
    generate_image ⟨3, 2⟩ (.Hue (some 1) (some (1/2))) ⟨7, 1/16⟩ =
      generate_image ⟨3, 2⟩ (.Hue (some 1) (some (1/2))) ⟨7, 1/16⟩ :=
  generate_image_deterministic _ _ _ _ _ _ rfl rfl rfl

/-- C5: a 0×0 size yields a successful, zero-pixel, empty image for every
pixel initialization and noise options. -/
theorem generate_image_zero_size_ok :
    ∀ (pixel_init : PixelInit) (noise_options : NoiseOptions),
      generate_image ⟨0, 0⟩ pixel_init noise_options = .ok (Image.new 0 0)
      ∧ (Image.new 0 0).width = 0 ∧ (Image.new 0 0).height = 0 :=
  fun _ _ => ⟨rfl, rfl, rfl⟩

/-- C6: a failing generation propagates exactly the error of the first pixel
whose conversion failed (no partial image is returned), and a successful
generation assigned to every coordinate the pixel produced by its own
conversion. -/
theorem generate_image_error_first_or_all_ok :
    ∀ (size : Size) (pixel_init : PixelInit) (noise_options : NoiseOptions),
      (∀ e, generate_image size pixel_init noise_options = .error e →
        ∃ l₁ c l₂,
          coordinates size.width size.height = l₁ ++ c :: l₂ ∧
          pixel_value pixel_init
            (some ((noiseField size.width size.height noise_options.frequency
              noise_options.seed pixel_init.valid_range.1 pixel_init.valid_range.2).getD
              (size.width * c.2 + c.1) 0)) = .error e ∧
          ∀ c' ∈ l₁, ∃ px, pixel_value pixel_init
            (some ((noiseField size.width size.height noise_options.frequency
              noise_options.seed pixel_init.valid_range.1 pixel_init.valid_range.2).getD
              (size.width * c'.2 + c'.1) 0)) = .ok px)
      ∧ (∀ img, generate_image size pixel_init noise_options = .ok img →
          ∀ c ∈ coordinates size.width size.height,
            ∃ px, pixel_value pixel_init
              (some ((noiseField size.width size.height noise_options.frequency
                noise_options.seed pixel_init.valid_range.1 pixel_init.valid_range.2).getD
                (size.width * c.2 + c.1) 0)) = .ok px ∧
              img.get_pixel c = px) := by
  intro size pixel_init noise_options
  constructor
  · intro e hres
    simp only [generate_image] at hres
    simpa using renderLoop_error_first hres
  · intro img hres c hc
    simp only [generate_image] at hres
    simpa using renderLoop_get_of_mem (nodup_coordinates _ _) hres hc

/-- Witness for C6: the error half applied to a concrete failing generation
(1×1 image, Hue variant with invalid fixed saturation 2.0). -/
theorem generate_image_error_first_or_all_ok_witness :
    ∃ l₁ c l₂,
      coordinates 1 1 = l₁ ++ c :: l₂ ∧
      pixel_value (.Hue (some 2) (some (1/2)))
        (some ((noiseField 1 1 0 0 0 359.99).getD (1 * c.2 + c.1) 0)) =
          .error .Saturation ∧
      ∀ c' ∈ l₁, ∃ px, pixel_value (.Hue (some 2) (some (1/2)))
        (some ((noiseField 1 1 0 0 0 359.99).getD (1 * c'.2 + c'.1) 0)) = .ok px :=
  (generate_image_error_first_or_all_ok ⟨1, 1⟩ (.Hue (some 2) (some (1/2))) ⟨0, 0⟩).1
    .Saturation
    (generate_image_hue2_sat_error ⟨1, 1⟩ ⟨0, 0⟩ (by norm_num) (by norm_num))

/-- C8 (amended): for every size with at least one pixel and every noise
options, the Hue variant with fixed saturation 2.0 and brightness 0.5 makes
`generate_image` fail with the Saturation error at the first pixel. -/
theorem generate_image_invalid_fixed_saturation_fails :
    ∀ (size : Size) (noise_options : NoiseOptions),
      0 < size.width → 0 < size.height →
      generate_image size (.Hue (some 2) (some (1/2))) noise_options =
        .error .Saturation :=
  fun size o hw hh => generate_image_hue2_sat_error size o hw hh

/-- Witness for C8's amended claim: a concrete 2×3 generation. -/
theorem generate_image_invalid_fixed_saturation_fails_witness :
    generate_image ⟨2, 3⟩ (.Hue (some 2) (some (1/2))) ⟨5, 1/8⟩ =
      .error .Saturation :=
  generate_image_invalid_fixed_saturation_fails ⟨2, 3⟩ ⟨5, 1/8⟩ (by norm_num)
    (by norm_num)

/-- Counterexample to C8 as stated (which quantifies over every Size): at the
0×0 size the invalid fixed saturation is never inspected, the pixel loop is
empty and generation succeeds instead of failing. -/
theorem generate_image_invalid_saturation_zero_size_succeeds :
    generate_image ⟨0, 0⟩ (.Hue (some 2) (some (1/2))) ⟨0, 0⟩ = .ok (Image.new 0 0)
    ∧ generate_image ⟨0, 0⟩ (.Hue (some 2) (some (1/2))) ⟨0, 0⟩ ≠
        .error .Saturation := by
  have h1 : generate_image ⟨0, 0⟩ (.Hue (some 2) (some (1/2))) ⟨0, 0⟩ =
      .ok (Image.new 0 0) := rfl
  exact ⟨h1, by rw [h1]; exact nofun⟩

/-- Helper: full evaluation of a concrete 1×1 generation with the Brightness
variant, fixed hue 0 and saturation 0, seed 0 and frequency 0.  The single
noise sample of the modelled field is 433/1024, and the resulting channel
value (433/1024)*255 truncates to 107. -/
theorem generate_image_1x1_brightness_eval :
    generate_image ⟨1, 1⟩ (.Brightness (some 0) (some 0)) ⟨0, 0⟩ =
      .ok ((Image.new 1 1).set_pixel (0, 0) (Pixel.new 107 107 107)) := by
  have hco : coordinates 1 1 = [(0, 0)] := rfl
  have hnf : noiseField 1 1 0 0 0 1 = [noiseSample 0 0 0 1 0] := rfl
  have hs : noiseSample 0 0 0 1 0 = 433 / 1024 := by
    norm_num [noiseSample, Rat.den_ofNat]
  have hpx : pixel_value (.Brightness (some 0) (some 0)) (some (433 / 1024)) =
      .ok (Pixel.new 107 107 107) := by
    show hsv_to_rgb (some 0) (some 0) (some (433 / 1024)) = _
    rw [hsv_to_rgb_valid (by norm_num) (by norm_num) (by norm_num) (by norm_num)
      (by norm_num) (by norm_num)]
    norm_num [spec_hsv_formula, qrem, truncQ, Pixel.new] <;> decide
  simp only [generate_image, PixelInit.valid_range, hco]
  rw [renderLoop]
  norm_num [hnf, hs, hpx, renderLoop]

/-- Witness for C3: the theorem applied to the concrete successful 1×1
generation evaluated in `generate_image_1x1_brightness_eval`. -/
theorem generate_image_pixel_formula_witness :
    ∃ px,
      pixel_value (.Brightness (some 0) (some 0))
        (some ((noiseField 1 1 0 0 0 1).getD (1 * 0 + 0) 0)) = .ok px
      ∧ ((Image.new 1 1).set_pixel (0, 0) (Pixel.new 107 107 107)).get_pixel (0, 0) = px :=
  generate_image_pixel_formula.1 ⟨1, 1⟩ (.Brightness (some 0) (some 0)) ⟨0, 0⟩
    ((Image.new 1 1).set_pixel (0, 0) (Pixel.new 107 107 107)) 0 0
    generate_image_1x1_brightness_eval (by norm_num) (by norm_num)

/-! String model lemmas for the `Size` round-trip. -/

/-- The character of a decimal digit: its code point, digit-ness, and being
distinct from the separator and sign characters. -/
theorem digit_char_facts {d : ℕ} (hd : d < 10) :
    (Char.ofNat (48 + d)).toNat = 48 + d
    ∧ isDigitChar (Char.ofNat (48 + d)) = true
    ∧ Char.ofNat (48 + d) ≠ 'x'
    ∧ Char.ofNat (48 + d) ≠ '+' := by
  interval_cases d <;> exact ⟨by decide, by decide, by decide, by decide⟩

/-- Every character of a rendered natural number is a decimal digit (hence
neither the separator `'x'` nor a sign). -/
theorem natToString_chars {n : ℕ} :
    ∀ c ∈ natToString n, isDigitChar c = true ∧ c ≠ 'x' ∧ c ≠ '+' := by
  intro c hc
  unfold natToString at hc
  by_cases h0 : n = 0
  · rw [if_pos h0] at hc
    rcases List.mem_singleton.mp hc with rfl
    exact ⟨by decide, by decide, by decide⟩
  · rw [if_neg h0] at hc
    obtain ⟨d, hd, rfl⟩ := List.mem_map.mp hc
    have hd10 : d < 10 :=
      Nat.digits_lt_base (by norm_num) (List.mem_reverse.mp hd)
    exact (digit_char_facts hd10).2

/-- A rendered natural number is never empty. -/
theorem natToString_ne_nil (n : ℕ) : natToString n ≠ [] := by
  unfold natToString
  by_cases h0 : n = 0
  · rw [if_pos h0]; exact nofun
  · rw [if_neg h0]
    intro hnil
    exact (Nat.digits_ne_nil_iff_ne_zero.mpr h0)
      (by simpa using congrArg List.length hnil)

/-- Parsing inverts rendering for every value that fits in 32 bits. -/
theorem parseU32_natToString {n : ℕ} (hn : n < 2 ^ 32) :
    parseU32 (natToString n) = some n := by
  by_cases h0 : n = 0
  · subst h0; decide
  · have hhead : ¬(natToString n).head? = some '+' := by
      intro hh
      have hmem : '+' ∈ natToString n := List.mem_of_mem_head? hh
      exact (natToString_chars _ hmem).2.2 rfl
    have hall : (natToString n).all isDigitChar = true :=
      List.all_eq_true.mpr (fun c hc => (natToString_chars c hc).1)
    have hmap : (natToString n).map (fun c => c.toNat - 48) = (Nat.digits 10 n).reverse := by
      rw [natToString, if_neg h0, List.map_map]
      refine (List.map_congr_left ?_).trans (List.map_id _)
      intro d hd
      have hd10 : d < 10 :=
        Nat.digits_lt_base (by norm_num) (List.mem_reverse.mp hd)
      simp [Function.comp, (digit_char_facts hd10).1]
    rw [parseU32]
    simp only [if_neg hhead, if_neg (natToString_ne_nil n), hall, Bool.not_true,
      Bool.false_eq_true, if_false, hmap, List.reverse_reverse, Nat.ofDigits_digits,
      if_pos hn]
    intro rest heq
    exact (natToString_chars '+' (by rw [heq]; exact List.mem_cons_self _ _)).2.2 rfl

/-- Splitting a separator-free word yields that single chunk. -/
theorem splitChar_of_not_mem {sep : Char} {B : List Char} (hB : sep ∉ B) :
    splitChar sep B = [B] := by
  induction B with
  | nil => rfl
  | cons c cs ih =>
    have hc : ¬c = sep := fun h => hB (h ▸ List.mem_cons_self _ _)
    have hcs : sep ∉ cs := fun h => hB (List.mem_cons_of_mem _ h)
    rw [splitChar, if_neg hc, ih hcs]

/-- Splitting at the first separator occurrence peels off the leading chunk. -/
theorem splitChar_append {sep : Char} {A B : List Char} (hA : sep ∉ A) :
    splitChar sep (A ++ sep :: B) = A :: splitChar sep B := by
  induction A with
  | nil => rw [List.nil_append, splitChar, if_pos rfl]
  | cons c cs ih =>
    have hc : ¬c = sep := fun h => hA (h ▸ List.mem_cons_self _ _)
    have hcs : sep ∉ cs := fun h => hA (List.mem_cons_of_mem _ h)
    rw [List.cons_append, splitChar, if_neg hc, ih hcs]

/-- C10: `Display` and `FromStr` for `Size` round-trip — formatting any
`Size` (whose `u32` fields are below 2^32) as `"WxH"` and parsing it back
returns the identical `Size`. -/
theorem size_display_parse_roundtrip :
    ∀ w h : ℕ, w < 2 ^ 32 → h < 2 ^ 32 →
      size_from_str (size_display ⟨w, h⟩) = some (⟨w, h⟩ : Size) := by
  intro w h hw hh
  have hxw : 'x' ∉ natToString w := fun hx => (natToString_chars _ hx).2.1 rfl
  have hxh : 'x' ∉ natToString h := fun hx => (natToString_chars _ hx).2.1 rfl
  have hsplit : splitChar 'x' (size_display ⟨w, h⟩) =
      [natToString w, natToString h] := by
    rw [size_display, splitChar_append hxw, splitChar_of_not_mem hxh]
  rw [size_from_str, hsplit]
  simp [parseU32_natToString hw, parseU32_natToString hh]

/-- Witness for C10: the round-trip at the documented example 512×256. -/
theorem size_display_parse_roundtrip_witness :
    size_from_str (size_display ⟨512, 256⟩) = some (⟨512, 256⟩ : Size) :=
  size_display_parse_roundtrip 512 256 (by norm_num) (by norm_num)

end RandomGradient
